import Mathlib

/-!
Verification of the `opengl_rust` repository: a shallow embedding of its OBJ
mesh loader and of the render-loop helpers in `src/main.rs`, together with
proofs of the specified properties.

The loader module (`model_loader`, used at `main.rs:82`) is not part of the
sources available here, so its definitions are modelled from the
specification (each such definition's doc comment says so).  The view matrix,
event-loop control flow, per-frame uniforms and the time accumulator are
embedded from `src/main.rs` directly.
-/

namespace OpenglRust

/-! ## Mesh loader: basic text utilities -/

/-- Modelled from the spec: splitting a line of characters at every character
satisfying `p`, keeping empty fields (needed for corner descriptors such as
`1//1`, whose middle field is empty). -/
def splitCh (p : Char → Bool) : List Char → List (List Char)
  | [] => [[]]
  | c :: cs =>
    let r := splitCh p cs
    if p c then [] :: r
    else
      match r with
      | [] => [[c]]
      | t :: ts => (c :: t) :: ts

/-- Modelled from the spec: a line is split on runs of whitespace into tokens;
dropping empty fields both trims the ends and collapses runs. -/
def tokenize (cs : List Char) : List (List Char) :=
  (splitCh Char.isWhitespace cs).filter (fun t => !t.isEmpty)

/-- Numeric value of a list of decimal digit characters. -/
def digitsToNat (cs : List Char) : Nat :=
  cs.foldl (fun a c => 10 * a + (c.toNat - 48)) 0

/-- Modelled from the spec: a 1-based index field must be a nonempty string of
decimal digits; anything else is a malformed numeric field. -/
def parseIndex (cs : List Char) : Option Nat :=
  if cs.isEmpty then none
  else if cs.all Char.isDigit then some (digitsToNat cs) else none

/-- Modelled from the spec: an unsigned decimal number, `digits` or
`digits.digits` (either side of the dot may be empty but not both), read as an
exact rational. -/
def parseUnsigned (cs : List Char) : Option ℚ :=
  match splitCh (· = '.') cs with
  | [ip] =>
    if ip.isEmpty then none
    else if ip.all Char.isDigit then some (digitsToNat ip) else none
  | [ip, fp] =>
    if ip.isEmpty ∧ fp.isEmpty then none
    else if ip.all Char.isDigit ∧ fp.all Char.isDigit then
      some ((digitsToNat ip : ℚ) + (digitsToNat fp : ℚ) / (10 : ℚ) ^ fp.length)
    else none
  | _ => none

/-- Modelled from the spec: a float field, an unsigned number with an optional
leading minus sign.  A field that fails to parse yields `none` (a
`ParseError` at the loader level). -/
def parseFloat (cs : List Char) : Option ℚ :=
  match cs with
  | '-' :: rest => (parseUnsigned rest).map (fun q => -q)
  | _ => parseUnsigned cs

/-! ## Mesh loader: data model -/

/-- A parsed 3D point or direction (exact rationals standing for the file's
decimal literals). -/
abbrev Q3 : Type := ℚ × ℚ × ℚ

/-- The Mesh produced by the loader: three parallel flat sequences. -/
structure Mesh where
  positions : List Q3
  normals : List Q3
  indices : List Nat
deriving DecidableEq

/-- Why a load failed to parse. -/
inductive ParseReason where
  | malformedNumber
  | faceTooShort
  | indexOutOfRange
deriving DecidableEq

/-- The loader's two error kinds. -/
inductive LoadError where
  | ioError
  | parseError (reason : ParseReason)
deriving DecidableEq

instance {ε α : Type} [DecidableEq ε] [DecidableEq α] :
    DecidableEq (Except ε α) := fun a b =>
  match a, b with
  | .error e, .error f =>
    if h : e = f then .isTrue (by rw [h]) else .isFalse (by simp [h])
  | .error _, .ok _ => .isFalse (by simp)
  | .ok _, .error _ => .isFalse (by simp)
  | .ok x, .ok y =>
    if h : x = y then .isTrue (by rw [h]) else .isFalse (by simp [h])

/-- Modelled from the spec: the loader's accumulation state — the raw vertex
and normal records parsed so far, and the per-corner (position, normal) pairs
emitted for the triangles produced so far. -/
structure LoaderState where
  rawVertices : List Q3
  rawNormals : List Q3
  emitted : List (Q3 × Q3)
deriving DecidableEq

/-- The empty loader state. -/
def initState : LoaderState := ⟨[], [], []⟩

/-! ## Mesh loader: parsing -/

/-- Modelled from the spec: parse three float fields (extra tokens on the line
are not read: only "the next 3 tokens" are parsed). -/
def parseVec3 (toks : List (List Char)) : Option Q3 :=
  match toks with
  | a :: b :: c :: _ => do
    let x ← parseFloat a
    let y ← parseFloat b
    let z ← parseFloat c
    pure (x, y, z)
  | _ => none

/-- Modelled from the spec: a corner descriptor's slash-separated fields give
the 1-based vertex index (first field) and the 1-based normal index (last
field); middle fields are ignored. -/
def parseCornerFields (fields : List (List Char)) : Option (Nat × Nat) :=
  match fields with
  | [] => none
  | f0 :: rest => do
    let v ← parseIndex f0
    let n ← parseIndex (List.getLastD rest f0)
    pure (v, n)

/-- Modelled from the spec: parse a corner descriptor token such as `1//1`. -/
def parseCorner (cs : List Char) : Option (Nat × Nat) :=
  parseCornerFields (splitCh (· = '/') cs)

/-- Modelled from the spec: resolve a 1-based index against a raw record
sequence; 0 and indices past the end are out of range. -/
def resolve1 {α : Type} (l : List α) (i : Nat) : Option α :=
  if i = 0 then none else l[i - 1]?

/-- Modelled from the spec: resolve one corner descriptor to its (position,
normal) pair, failing on a malformed field or an out-of-range index. -/
def resolveCorner (st : LoaderState) (tok : List Char) :
    Except LoadError (Q3 × Q3) :=
  match parseCorner tok with
  | none => .error (.parseError .malformedNumber)
  | some (vi, ni) =>
    match resolve1 st.rawVertices vi, resolve1 st.rawNormals ni with
    | some v, some n => .ok (v, n)
    | _, _ => .error (.parseError .indexOutOfRange)

/-- Modelled from the spec: resolve every corner descriptor of a face line, in
order, stopping at the first failure. -/
def resolveCorners (st : LoaderState) :
    List (List Char) → Except LoadError (List (Q3 × Q3))
  | [] => .ok []
  | t :: ts =>
    match resolveCorner st t with
    | .error e => .error e
    | .ok c =>
      match resolveCorners st ts with
      | .error e => .error e
      | .ok cs => .ok (c :: cs)

/-- Fan triangulation helper: with apex `c0` and previous corner `prev`,
each further corner `c` yields the triangle `(c0, prev, c)`. -/
def fanAux {α : Type} (c0 : α) (prev : α) : List α → List (α × α × α)
  | [] => []
  | c :: cs => (c0, prev, c) :: fanAux c0 c cs

/-- Modelled from the spec: fan triangulation from the first listed corner —
corners `c0 :: c1 :: rest` yield triangles `(c0, cᵢ, cᵢ₊₁)`. -/
def fanTriangulate {α : Type} : List α → List (α × α × α)
  | c0 :: c1 :: rest => fanAux c0 c1 rest
  | _ => []

/-- Flatten triangles into the per-corner emission order. -/
def triFlatten {α : Type} : List (α × α × α) → List α
  | [] => []
  | (a, b, c) :: ts => a :: b :: c :: triFlatten ts

/-- Modelled from the spec: process a face line's corner tokens — resolve all
corners, require at least 3, fan-triangulate and append the per-corner
emissions. -/
def processFace (st : LoaderState) (toks : List (List Char)) :
    Except LoadError LoaderState :=
  match resolveCorners st toks with
  | .error e => .error e
  | .ok corners =>
    if corners.length < 3 then .error (.parseError .faceTooShort)
    else .ok { st with
      emitted := st.emitted ++ triFlatten (fanTriangulate corners) }

/-- Modelled from the spec: process one line — `v` and `vn` records append a
raw vertex/normal, `f` records emit triangles, empty and unrecognized lines
are skipped silently. -/
def processLine (st : LoaderState) (line : List Char) :
    Except LoadError LoaderState :=
  match tokenize line with
  | [] => .ok st
  | t :: rest =>
    if t = ['v'] then
      match parseVec3 rest with
      | some p => .ok { st with rawVertices := st.rawVertices ++ [p] }
      | none => .error (.parseError .malformedNumber)
    else if t = ['v', 'n'] then
      match parseVec3 rest with
      | some p => .ok { st with rawNormals := st.rawNormals ++ [p] }
      | none => .error (.parseError .malformedNumber)
    else if t = ['f'] then processFace st rest
    else .ok st

/-- Modelled from the spec: process the lines in order, stopping at the first
failure. -/
def runLines (st : LoaderState) : List (List Char) → Except LoadError LoaderState
  | [] => .ok st
  | l :: ls =>
    match processLine st l with
    | .error e => .error e
    | .ok st2 => runLines st2 ls

/-- Modelled from the spec: the final Mesh — positions and normals are the
two projections of the emission sequence, and `indices` is the identity
sequence over its length. -/
def meshOf (st : LoaderState) : Mesh :=
  { positions := st.emitted.map Prod.fst
    normals := st.emitted.map Prod.snd
    indices := List.range st.emitted.length }

/-- Modelled from the spec: load from a list of text lines. -/
def loadLines (lines : List String) : Except LoadError Mesh :=
  (runLines initState (lines.map String.data)).map meshOf

/-- Modelled from the spec: `load` — the file's contents are given as
`some lines` when the file can be opened and `none` when it cannot, in which
case the loader fails with `IOError`. -/
def load (file : Option (List String)) : Except LoadError Mesh :=
  match file with
  | none => .error .ioError
  | some lines => loadLines lines

/-- Modelled from the spec: a corner descriptor is at fault when a field is
malformed or when, with `nv` vertices and `nn` normals parsed so far, one of
its 1-based indices is out of range.  This is the spec's error condition,
stated independently of the loader's control flow. -/
def cornerFaulty (nv nn : Nat) (tok : List Char) : Bool :=
  match parseCorner tok with
  | none => true
  | some (vi, ni) =>
    if 1 ≤ vi ∧ vi ≤ nv ∧ 1 ≤ ni ∧ ni ≤ nn then false else true

/-- Modelled from the spec: a line is at fault when it is a `v`/`vn` record
with a malformed numeric field, or an `f` record with a faulty corner or
fewer than 3 corners; all other lines are never at fault. -/
def lineFaulty (nv nn : Nat) (line : List Char) : Bool :=
  match tokenize line with
  | [] => false
  | t :: rest =>
    if t = ['v'] ∨ t = ['v', 'n'] then (parseVec3 rest).isNone
    else if t = ['f'] then
      rest.any (cornerFaulty nv nn) || decide (rest.length < 3)
    else false

/-- How many raw vertices a (non-faulty) line contributes. -/
def lineVCount (line : List Char) : Nat :=
  match tokenize line with
  | t :: _ => if t = ['v'] then 1 else 0
  | [] => 0

/-- How many raw normals a (non-faulty) line contributes. -/
def lineVNCount (line : List Char) : Nat :=
  match tokenize line with
  | t :: _ => if t = ['v', 'n'] then 1 else 0
  | [] => 0

/-- Modelled from the spec: an input is faulty when some line is at fault
with respect to the records parsed on the earlier lines. -/
def inputFaulty (nv nn : Nat) : List (List Char) → Bool
  | [] => false
  | l :: ls =>
    lineFaulty nv nn l ||
      inputFaulty (nv + lineVCount l) (nn + lineVNCount l) ls

/-- Modelled from the spec: a line is recognized when its first token is `v`,
`vn` or `f`; every other line (empty lines included) is skipped. -/
def recognizedLine (line : List Char) : Bool :=
  match tokenize line with
  | [] => false
  | t :: _ => decide (t = ['v']) || decide (t = ['v', 'n']) || decide (t = ['f'])

/-! ## Render loop, embedded from `src/main.rs` -/

/-- A 3-component vector; the source's `[f32; 3]` read as exact reals. -/
structure V3 where
  x : ℝ
  y : ℝ
  z : ℝ

/-- Dot product of two 3-vectors. -/
noncomputable def dot3 (a b : V3) : ℝ := a.x * b.x + a.y * b.y + a.z * b.z

/-- Cross product of two 3-vectors, as written componentwise in
`view_matrix` (`main.rs:176-178` and `main.rs:186-188`). -/
noncomputable def cross3 (a b : V3) : V3 :=
  ⟨a.y * b.z - a.z * b.y, a.z * b.x - a.x * b.z, a.x * b.y - a.y * b.x⟩

/-- Euclidean length, as computed in `view_matrix` (`main.rs:171-172`). -/
noncomputable def norm3 (a : V3) : ℝ := Real.sqrt (dot3 a a)

/-- Componentwise division by the length (`main.rs:173`). -/
noncomputable def normalize3 (a : V3) : V3 :=
  ⟨a.x / norm3 a, a.y / norm3 a, a.z / norm3 a⟩

/-- The `f` vector of `view_matrix` (`main.rs:169-174`): the normalized look
direction. -/
noncomputable def vm_f (direction : V3) : V3 := normalize3 direction

/-- The `s_norm` vector of `view_matrix` (`main.rs:176-184`):
`normalize(up × f)`. -/
noncomputable def vm_snorm (up direction : V3) : V3 :=
  normalize3 (cross3 up (vm_f direction))

/-- The `u` vector of `view_matrix` (`main.rs:186-188`): `f × s_norm`. -/
noncomputable def vm_u (up direction : V3) : V3 :=
  cross3 (vm_f direction) (vm_snorm up direction)

/-- The `p` translation row of `view_matrix` (`main.rs:190-192`). -/
noncomputable def vm_p (position up direction : V3) : V3 :=
  ⟨-(dot3 position (vm_snorm up direction)),
   -(dot3 position (vm_u up direction)),
   -(dot3 position (vm_f direction))⟩

/-- `view_matrix` (`main.rs:168-200`), row by row; entry `(i, j)` is row `i`,
column `j` of the returned `[[f32; 4]; 4]`. -/
noncomputable def view_matrix (position direction up : V3) :
    Fin 4 → Fin 4 → ℝ :=
  let f := vm_f direction
  let s_norm := vm_snorm up direction
  let u := vm_u up direction
  let p := vm_p position up direction
  ![![s_norm.x, u.x, f.x, 0],
    ![s_norm.y, u.y, f.y, 0],
    ![s_norm.z, u.z, f.z, 0],
    ![p.x, p.y, p.z, 1]]

/-- The window events distinguished by the handler (`main.rs:156-162`). -/
inductive WindowEvt where
  | closeRequested
  | resized
  | moved
  | focused
  | otherWindow
deriving DecidableEq

/-- The event-loop events distinguished by the handler (`main.rs:155-164`). -/
inductive Evt where
  | windowEvent (e : WindowEvt)
  | newEvents
  | deviceEvent
  | mainEventsCleared
  | redrawRequested
  | redrawEventsCleared
  | loopDestroyed
deriving DecidableEq

/-- The control-flow values of the event loop. -/
inductive ControlFlow where
  | poll
  | wait
  | waitUntil (deadlineNanos : Nat)
  | exitLoop
deriving DecidableEq

/-- The frame period set at `main.rs:152-153`: 16,666,667 nanoseconds. -/
def frameDurationNanos : Nat := 16666667

/-- The control flow set by one iteration of the event-loop closure
(`main.rs:152-164`): first `WaitUntil(now + 16_666_667ns)` is stored, then a
window `CloseRequested` event overwrites it with `Exit`; every other event
leaves it. -/
def iterationControlFlow (nowNanos : Nat) (ev : Evt) : ControlFlow :=
  let next := ControlFlow.waitUntil (nowNanos + frameDurationNanos)
  match ev with
  | .windowEvent .closeRequested => .exitLoop
  | .windowEvent _ => next
  | _ => next

/-- The uniform set passed to the draw call (`main.rs:117-127`). -/
structure Uniforms where
  model : Fin 4 → Fin 4 → ℝ
  view : Fin 4 → Fin 4 → ℝ
  u_light : V3
  perspective : Fin 4 → Fin 4 → ℝ

/-- The perspective matrix computed from the framebuffer dimensions
(`main.rs:99-115`). -/
noncomputable def perspectiveMatrix (width height : ℝ) : Fin 4 → Fin 4 → ℝ :=
  let aspect_ratio := height / width
  let fov : ℝ := 3.141592 / 3
  let zfar : ℝ := 1024
  let znear : ℝ := 0.1
  let f := 1 / Real.tan (fov / 2)
  ![![f * aspect_ratio, 0, 0, 0],
    ![0, f, 0, 0],
    ![0, 0, (zfar + znear) / (zfar - znear), 1],
    ![0, 0, -(2 * zfar * znear) / (zfar - znear), 0]]

/-- The per-frame uniform set (`main.rs:99-127`).  Besides the framebuffer
dimensions, the closure has access to the mutable accumulator `t`, an
implicit frame count, and the current event; they are parameters here because
they are in scope in the source, and the definition mirrors the source in
using none of them. -/
noncomputable def frameUniforms (width height : ℝ) (t : ℝ) (frameCount : Nat)
    (ev : Evt) : Uniforms :=
  { model := ![![0.1, 0, 0, 0], ![0, 0.1, 0, 0], ![0, 0, 0.1, 0], ![0, 0, 2, 1]]
    view := view_matrix ⟨2, -1, 1⟩ ⟨-2, 1, 1⟩ ⟨0, 1, 0⟩
    u_light := ⟨-1, 0.4, 0.9⟩
    perspective := perspectiveMatrix width height }

/-- The accumulator's initial value (`main.rs:95`). -/
def tInit : ℚ := -0.5

/-- One iteration's update of the accumulator (`main.rs:147-150`): add
`0.0002`, then reset to `-0.5` if the result exceeds `0.5`. -/
def tStep (t : ℚ) : ℚ :=
  let t1 := t + 0.0002
  if t1 > 0.5 then -0.5 else t1

/-! ## Helper lemmas -/

theorem processLine_skip (st : LoaderState) (l : List Char)
    (h : recognizedLine l = false) : processLine st l = .ok st := by
  unfold processLine
  unfold recognizedLine at h
  cases htok : tokenize l with
  | nil => simp
  | cons t rest =>
    rw [htok] at h
    simp only [Bool.or_eq_false_iff, decide_eq_false_iff_not] at h
    obtain ⟨⟨h1, h2⟩, h3⟩ := h
    simp [h1, h2, h3]

theorem runLines_filter (st : LoaderState) (ls : List (List Char)) :
    runLines st ls = runLines st (ls.filter recognizedLine) := by
  induction ls generalizing st with
  | nil => rfl
  | cons l ls ih =>
    by_cases h : recognizedLine l
    · rw [List.filter_cons_of_pos h]
      simp only [runLines]
      cases hp : processLine st l with
      | error e => rfl
      | ok st2 => exact ih st2
    · rw [List.filter_cons_of_neg (by simpa using h)]
      simp only [runLines, processLine_skip st l (by simpa using h)]
      exact ih st

theorem triFlatten_length {α : Type} (ts : List (α × α × α)) :
    (triFlatten ts).length = 3 * ts.length := by
  induction ts with
  | nil => rfl
  | cons t ts ih =>
    obtain ⟨a, b, c⟩ := t
    simp only [triFlatten, List.length_cons, ih]
    ring

theorem processLine_emitted_dvd (st st2 : LoaderState) (l : List Char)
    (hp : processLine st l = .ok st2) (h : 3 ∣ st.emitted.length) :
    3 ∣ st2.emitted.length := by
  unfold processLine at hp
  cases htok : tokenize l with
  | nil =>
    rw [htok] at hp
    simp only [Except.ok.injEq] at hp
    rw [← hp]; exact h
  | cons t rest =>
    rw [htok] at hp
    dsimp only at hp
    by_cases h1 : t = ['v']
    · rw [if_pos h1] at hp
      cases hv : parseVec3 rest with
      | none => rw [hv] at hp; exact absurd hp (by simp)
      | some p =>
        rw [hv] at hp
        simp only [Except.ok.injEq] at hp
        rw [← hp]; exact h
    · rw [if_neg h1] at hp
      by_cases h2 : t = ['v', 'n']
      · rw [if_pos h2] at hp
        cases hv : parseVec3 rest with
        | none => rw [hv] at hp; exact absurd hp (by simp)
        | some p =>
          rw [hv] at hp
          simp only [Except.ok.injEq] at hp
          rw [← hp]; exact h
      · rw [if_neg h2] at hp
        by_cases h3 : t = ['f']
        · rw [if_pos h3] at hp
          unfold processFace at hp
          cases hres : resolveCorners st rest with
          | error e => rw [hres] at hp; exact absurd hp (by simp)
          | ok corners =>
            rw [hres] at hp
            dsimp only at hp
            by_cases hl : corners.length < 3
            · rw [if_pos hl] at hp; exact absurd hp (by simp)
            · rw [if_neg hl] at hp
              simp only [Except.ok.injEq] at hp
              rw [← hp]
              simp only [List.length_append, triFlatten_length]
              exact Dvd.dvd.add h ⟨(fanTriangulate corners).length, rfl⟩
        · rw [if_neg h3] at hp
          simp only [Except.ok.injEq] at hp
          rw [← hp]; exact h

theorem runLines_emitted_dvd (ls : List (List Char)) (st st2 : LoaderState)
    (hr : runLines st ls = .ok st2) (h : 3 ∣ st.emitted.length) :
    3 ∣ st2.emitted.length := by
  induction ls generalizing st with
  | nil =>
    simp only [runLines, Except.ok.injEq] at hr
    rw [← hr]; exact h
  | cons l ls ih =>
    unfold runLines at hr
    cases hp : processLine st l with
    | error e => rw [hp] at hr; exact absurd hr (by simp)
    | ok stm =>
      rw [hp] at hr
      exact ih stm hr (processLine_emitted_dvd st stm l hp h)

theorem fanAux_length {α : Type} (c0 : α) (prev : α) (cs : List α) :
    (fanAux c0 prev cs).length = cs.length := by
  induction cs generalizing prev with
  | nil => rfl
  | cons c cs ih => simp [fanAux, ih]

theorem fanTriangulate_length {α : Type} (l : List α) :
    (fanTriangulate l).length = l.length - 2 := by
  match l with
  | [] => rfl
  | [c] => rfl
  | c0 :: c1 :: rest => simp [fanTriangulate, fanAux_length]

theorem fanAux_get {α : Type} (cs : List α) (i : Nat) (c0 prev a b : α)
    (h1 : (prev :: cs)[i]? = some a) (h2 : cs[i]? = some b) :
    (fanAux c0 prev cs)[i]? = some (c0, a, b) := by
  induction cs generalizing i prev with
  | nil => simp at h2
  | cons c cs ih =>
    cases i with
    | zero =>
      simp only [List.getElem?_cons_zero, Option.some.injEq] at h1 h2
      subst h1; subst h2
      simp [fanAux]
    | succ i =>
      simp only [List.getElem?_cons_succ] at h1 h2
      simpa only [fanAux, List.getElem?_cons_succ] using ih i c h1 h2

theorem fan_get {α : Type} (l : List α) (i : Nat) (c0 a b : α)
    (h0 : l[0]? = some c0) (h1 : l[i + 1]? = some a)
    (h2 : l[i + 2]? = some b) :
    (fanTriangulate l)[i]? = some (c0, a, b) := by
  match l with
  | [] => simp at h0
  | [c] => simp at h1
  | cx :: c1 :: rest =>
    simp only [List.getElem?_cons_zero, Option.some.injEq] at h0
    subst h0
    simp only [List.getElem?_cons_succ] at h1 h2
    exact fanAux_get rest i cx c1 a b h1 h2

theorem resolve1_eq_none_iff {α : Type} (l : List α) (i : Nat) :
    resolve1 l i = none ↔ ¬(1 ≤ i ∧ i ≤ l.length) := by
  unfold resolve1
  by_cases h : i = 0
  · simp [h]
  · rw [if_neg h, List.getElem?_eq_none_iff]
    omega

theorem resolveCorner_error_iff (st : LoaderState) (tok : List Char) :
    (∃ e, resolveCorner st tok = .error e) ↔
      cornerFaulty st.rawVertices.length st.rawNormals.length tok = true := by
  unfold resolveCorner cornerFaulty
  cases hp : parseCorner tok with
  | none => simp
  | some vn =>
    obtain ⟨vi, ni⟩ := vn
    dsimp only
    by_cases hin : 1 ≤ vi ∧ vi ≤ st.rawVertices.length ∧
        1 ≤ ni ∧ ni ≤ st.rawNormals.length
    · rw [if_pos hin]
      cases hv : resolve1 st.rawVertices vi with
      | none => exact absurd (resolve1_eq_none_iff _ _ |>.mp hv) (by tauto)
      | some v =>
        cases hn : resolve1 st.rawNormals ni with
        | none => exact absurd (resolve1_eq_none_iff _ _ |>.mp hn) (by tauto)
        | some n => simp
    · rw [if_neg hin]
      have : resolve1 st.rawVertices vi = none ∨
          resolve1 st.rawNormals ni = none := by
        by_cases hv : 1 ≤ vi ∧ vi ≤ st.rawVertices.length
        · right
          exact (resolve1_eq_none_iff _ _).mpr (by tauto)
        · left
          exact (resolve1_eq_none_iff _ _).mpr hv
      rcases this with hv | hn
      · rw [hv]
        simp
      · rw [hn]
        cases resolve1 st.rawVertices vi <;> simp

theorem resolveCorners_error_iff (st : LoaderState) (toks : List (List Char)) :
    (∃ e, resolveCorners st toks = .error e) ↔
      toks.any (cornerFaulty st.rawVertices.length st.rawNormals.length)
        = true := by
  induction toks with
  | nil => simp [resolveCorners]
  | cons t ts ih =>
    unfold resolveCorners
    rw [List.any_cons]
    cases hc : resolveCorner st t with
    | error e =>
      have ht : cornerFaulty st.rawVertices.length st.rawNormals.length t
          = true := (resolveCorner_error_iff st t).mp ⟨e, hc⟩
      rw [ht]
      simp
    | ok c =>
      have hnf : cornerFaulty st.rawVertices.length st.rawNormals.length t
          = false := by
        rw [← Bool.not_eq_true]
        intro hcon
        obtain ⟨e, he⟩ := (resolveCorner_error_iff st t).mpr hcon
        rw [hc] at he
        exact absurd he (by simp)
      rw [hnf]
      cases hr : resolveCorners st ts with
      | error e2 =>
        have hts := ih.mp ⟨e2, hr⟩
        rw [hts]
        simp
      | ok cs =>
        have hts : ts.any
            (cornerFaulty st.rawVertices.length st.rawNormals.length)
            = false := by
          rw [← Bool.not_eq_true]
          intro hcon
          obtain ⟨e, he⟩ := ih.mpr hcon
          rw [hr] at he
          exact absurd he (by simp)
        rw [hts]
        simp

theorem resolveCorners_ok_length (st : LoaderState) (toks : List (List Char))
    (corners : List (Q3 × Q3)) (h : resolveCorners st toks = .ok corners) :
    corners.length = toks.length := by
  induction toks generalizing corners with
  | nil =>
    simp only [resolveCorners, Except.ok.injEq] at h
    rw [← h]
    rfl
  | cons t ts ih =>
    unfold resolveCorners at h
    cases hc : resolveCorner st t with
    | error e => rw [hc] at h; exact absurd h (by simp)
    | ok c =>
      rw [hc] at h
      cases hr : resolveCorners st ts with
      | error e => rw [hr] at h; exact absurd h (by simp)
      | ok cs =>
        rw [hr] at h
        simp only [Except.ok.injEq] at h
        rw [← h]
        simp [ih cs hr]

theorem processLine_error_iff (st : LoaderState) (l : List Char) :
    (∃ e, processLine st l = .error e) ↔
      lineFaulty st.rawVertices.length st.rawNormals.length l = true := by
  unfold processLine lineFaulty
  cases htok : tokenize l with
  | nil => simp
  | cons t rest =>
    dsimp only
    by_cases h1 : t = ['v']
    · have hor : t = ['v'] ∨ t = ['v', 'n'] := Or.inl h1
      rw [if_pos h1, if_pos hor]
      cases parseVec3 rest <;> simp
    · by_cases h2 : t = ['v', 'n']
      · have hor : t = ['v'] ∨ t = ['v', 'n'] := Or.inr h2
        rw [if_neg h1, if_pos h2, if_pos hor]
        cases parseVec3 rest <;> simp
      · have hor : ¬(t = ['v'] ∨ t = ['v', 'n']) := by tauto
        rw [if_neg h1, if_neg h2, if_neg hor]
        by_cases h3 : t = ['f']
        · rw [if_pos h3, if_pos h3]
          unfold processFace
          cases hres : resolveCorners st rest with
          | error e =>
            have hany := (resolveCorners_error_iff st rest).mp ⟨e, hres⟩
            simp [hany]
          | ok corners =>
            have hany : rest.any
                (cornerFaulty st.rawVertices.length st.rawNormals.length)
                = false := by
              rw [← Bool.not_eq_true]
              intro hcon
              obtain ⟨e, he⟩ := (resolveCorners_error_iff st rest).mpr hcon
              rw [hres] at he
              exact absurd he (by simp)
            dsimp only
            rw [resolveCorners_ok_length st rest corners hres]
            by_cases hlen : rest.length < 3
            · simp [hlen, hany]
            · simp [hlen, hany]
        · rw [if_neg h3, if_neg h3]
          simp

theorem processLine_ok_counts (st st2 : LoaderState) (l : List Char)
    (hp : processLine st l = .ok st2) :
    st2.rawVertices.length = st.rawVertices.length + lineVCount l ∧
    st2.rawNormals.length = st.rawNormals.length + lineVNCount l := by
  unfold processLine at hp
  unfold lineVCount lineVNCount
  cases htok : tokenize l with
  | nil =>
    rw [htok] at hp
    dsimp only at hp
    simp only [Except.ok.injEq] at hp
    rw [← hp]
    simp
  | cons t rest =>
    rw [htok] at hp
    dsimp only at hp
    dsimp only
    by_cases h1 : t = ['v']
    · have h1n : ¬t = ['v', 'n'] := by rw [h1]; decide
      rw [if_pos h1] at hp
      rw [if_pos h1, if_neg h1n]
      cases hv : parseVec3 rest with
      | none => rw [hv] at hp; exact absurd hp (by simp)
      | some p =>
        rw [hv] at hp
        simp only [Except.ok.injEq] at hp
        rw [← hp]
        simp
    · rw [if_neg h1] at hp
      rw [if_neg h1]
      by_cases h2 : t = ['v', 'n']
      · rw [if_pos h2] at hp
        rw [if_pos h2]
        cases hv : parseVec3 rest with
        | none => rw [hv] at hp; exact absurd hp (by simp)
        | some p =>
          rw [hv] at hp
          simp only [Except.ok.injEq] at hp
          rw [← hp]
          simp
      · rw [if_neg h2] at hp
        rw [if_neg h2]
        by_cases h3 : t = ['f']
        · rw [if_pos h3] at hp
          unfold processFace at hp
          cases hres : resolveCorners st rest with
          | error e => rw [hres] at hp; exact absurd hp (by simp)
          | ok corners =>
            rw [hres] at hp
            dsimp only at hp
            by_cases hl : corners.length < 3
            · rw [if_pos hl] at hp; exact absurd hp (by simp)
            · rw [if_neg hl] at hp
              simp only [Except.ok.injEq] at hp
              rw [← hp]
              simp
        · rw [if_neg h3] at hp
          simp only [Except.ok.injEq] at hp
          rw [← hp]
          simp

theorem processLine_error_parse (st : LoaderState) (l : List Char)
    (e : LoadError) (h : processLine st l = .error e) :
    ∃ r, e = .parseError r := by
  unfold processLine at h
  cases htok : tokenize l with
  | nil => rw [htok] at h; exact absurd h (by simp)
  | cons t rest =>
    rw [htok] at h
    dsimp only at h
    by_cases h1 : t = ['v']
    · rw [if_pos h1] at h
      cases hv : parseVec3 rest with
      | none =>
        rw [hv] at h
        simp only [Except.error.injEq] at h
        exact ⟨_, h.symm⟩
      | some p => rw [hv] at h; exact absurd h (by simp)
    · rw [if_neg h1] at h
      by_cases h2 : t = ['v', 'n']
      · rw [if_pos h2] at h
        cases hv : parseVec3 rest with
        | none =>
          rw [hv] at h
          simp only [Except.error.injEq] at h
          exact ⟨_, h.symm⟩
        | some p => rw [hv] at h; exact absurd h (by simp)
      · rw [if_neg h2] at h
        by_cases h3 : t = ['f']
        · rw [if_pos h3] at h
          unfold processFace at h
          cases hres : resolveCorners st rest with
          | error e2 =>
            rw [hres] at h
            dsimp only at h
            simp only [Except.error.injEq] at h
            subst h
            clear htok
            induction rest generalizing st with
            | nil => simp [resolveCorners] at hres
            | cons tk tks ih =>
              unfold resolveCorners at hres
              cases hc : resolveCorner st tk with
              | error e3 =>
                rw [hc] at hres
                simp only [Except.error.injEq] at hres
                subst hres
                unfold resolveCorner at hc
                cases hpc : parseCorner tk with
                | none =>
                  rw [hpc] at hc
                  simp only [Except.error.injEq] at hc
                  exact ⟨_, hc.symm⟩
                | some vn =>
                  obtain ⟨vi, ni⟩ := vn
                  rw [hpc] at hc
                  dsimp only at hc
                  cases hv : resolve1 st.rawVertices vi <;>
                    cases hn : resolve1 st.rawNormals ni <;>
                      rw [hv, hn] at hc <;>
                        simp at hc <;>
                          exact ⟨_, hc.symm⟩
              | ok c =>
                rw [hc] at hres
                cases hr2 : resolveCorners st tks with
                | error e4 =>
                  rw [hr2] at hres
                  simp only [Except.error.injEq] at hres
                  subst hres
                  exact ih st hr2
                | ok cs => rw [hr2] at hres; exact absurd hres (by simp)
          | ok corners =>
            rw [hres] at h
            dsimp only at h
            by_cases hl : corners.length < 3
            · rw [if_pos hl] at h
              simp only [Except.error.injEq] at h
              exact ⟨_, h.symm⟩
            · rw [if_neg hl] at h
              exact absurd h (by simp)
        · rw [if_neg h3] at h
          exact absurd h (by simp)

theorem runLines_error_iff (ls : List (List Char)) (st : LoaderState) :
    (∃ e, runLines st ls = .error e) ↔
      inputFaulty st.rawVertices.length st.rawNormals.length ls = true := by
  induction ls generalizing st with
  | nil => simp [runLines, inputFaulty]
  | cons l ls ih =>
    unfold runLines inputFaulty
    cases hp : processLine st l with
    | error e =>
      have hl := (processLine_error_iff st l).mp ⟨e, hp⟩
      simp [hl]
    | ok st2 =>
      have hl : lineFaulty st.rawVertices.length st.rawNormals.length l
          = false := by
        rw [← Bool.not_eq_true]
        intro hcon
        obtain ⟨e, he⟩ := (processLine_error_iff st l).mpr hcon
        rw [hp] at he
        exact absurd he (by simp)
      obtain ⟨hv, hn⟩ := processLine_ok_counts st st2 l hp
      simp only [hl, Bool.false_or]
      rw [← hv, ← hn]
      exact ih st2

theorem runLines_error_parse (ls : List (List Char)) (st : LoaderState)
    (e : LoadError) (h : runLines st ls = .error e) :
    ∃ r, e = .parseError r := by
  induction ls generalizing st with
  | nil => exact absurd h (by simp [runLines])
  | cons l ls ih =>
    unfold runLines at h
    cases hp : processLine st l with
    | error e2 =>
      rw [hp] at h
      simp only [Except.error.injEq] at h
      subst h
      exact processLine_error_parse st l _ hp
    | ok st2 =>
      rw [hp] at h
      exact ih st2 h

theorem splitCh_no_match (p : Char → Bool) (a : List Char)
    (ha : ∀ x ∈ a, p x = false) : splitCh p a = [a] := by
  induction a with
  | nil => rfl
  | cons x xs ih =>
    have h1 := ha x (List.mem_cons_self x xs)
    have h2 := ih (fun y hy => ha y (List.mem_cons_of_mem x hy))
    simp [splitCh, h1, h2]

theorem splitCh_append (p : Char → Bool) (a : List Char) (c : Char)
    (rest : List Char) (hc : p c = true) (ha : ∀ x ∈ a, p x = false) :
    splitCh p (a ++ c :: rest) = a :: splitCh p rest := by
  induction a with
  | nil => simp [splitCh, hc]
  | cons x xs ih =>
    have h1 := ha x (List.mem_cons_self x xs)
    have h2 := ih (fun y hy => ha y (List.mem_cons_of_mem x hy))
    simp [splitCh, List.append_eq, h1, h2]

theorem dot3_comm (a b : V3) : dot3 a b = dot3 b a := by
  unfold dot3
  ring

theorem dot3_pos_of_ne_zero (v : V3) (h : v ≠ ⟨0, 0, 0⟩) : 0 < dot3 v v := by
  obtain ⟨x, y, z⟩ := v
  have hne : ¬(x = 0 ∧ y = 0 ∧ z = 0) := by
    intro ⟨hx, hy, hz⟩
    exact h (by rw [hx, hy, hz])
  unfold dot3
  dsimp only
  rcases lt_or_eq_of_le (add_nonneg (add_nonneg (mul_self_nonneg x)
      (mul_self_nonneg y)) (mul_self_nonneg z) : (0 : ℝ) ≤ x * x + y * y + z * z)
    with hlt | heq
  · exact hlt
  · exfalso
    have hx : x * x = 0 :=
      le_antisymm (by nlinarith [mul_self_nonneg y, mul_self_nonneg z])
        (mul_self_nonneg x)
    have hy : y * y = 0 :=
      le_antisymm (by nlinarith [mul_self_nonneg x, mul_self_nonneg z])
        (mul_self_nonneg y)
    have hz : z * z = 0 :=
      le_antisymm (by nlinarith [mul_self_nonneg x, mul_self_nonneg y])
        (mul_self_nonneg z)
    exact hne ⟨mul_self_eq_zero.mp hx, mul_self_eq_zero.mp hy,
      mul_self_eq_zero.mp hz⟩

theorem norm3_pos (v : V3) (h : 0 < dot3 v v) : 0 < norm3 v :=
  Real.sqrt_pos.mpr h

theorem dot3_normalize_self (v : V3) (h : 0 < dot3 v v) :
    dot3 (normalize3 v) (normalize3 v) = 1 := by
  have hs := norm3_pos v h
  have hsq : norm3 v * norm3 v = dot3 v v := Real.mul_self_sqrt (le_of_lt h)
  obtain ⟨x, y, z⟩ := v
  unfold dot3 normalize3 at *
  dsimp only at *
  field_simp
  linarith [hsq]

theorem dot3_normalize_left (a b : V3) :
    dot3 (normalize3 a) b = dot3 a b / norm3 a := by
  obtain ⟨x, y, z⟩ := a
  obtain ⟨p, q, r⟩ := b
  unfold dot3 normalize3 norm3
  dsimp only
  ring

theorem dot3_cross_left (a b : V3) : dot3 (cross3 a b) a = 0 := by
  obtain ⟨x, y, z⟩ := a
  obtain ⟨p, q, r⟩ := b
  unfold dot3 cross3
  dsimp only
  ring

theorem dot3_cross_right (a b : V3) : dot3 (cross3 a b) b = 0 := by
  obtain ⟨x, y, z⟩ := a
  obtain ⟨p, q, r⟩ := b
  unfold dot3 cross3
  dsimp only
  ring

theorem cross3_lagrange (a b : V3) :
    dot3 (cross3 a b) (cross3 a b)
      = dot3 a a * dot3 b b - dot3 a b * dot3 a b := by
  obtain ⟨x, y, z⟩ := a
  obtain ⟨p, q, r⟩ := b
  unfold dot3 cross3
  dsimp only
  ring

theorem cross3_normalize_right (a d : V3) :
    cross3 a (normalize3 d)
      = ⟨(cross3 a d).x / norm3 d, (cross3 a d).y / norm3 d,
         (cross3 a d).z / norm3 d⟩ := by
  obtain ⟨x, y, z⟩ := a
  obtain ⟨p, q, r⟩ := d
  simp only [cross3, normalize3, V3.mk.injEq]
  refine ⟨by ring, by ring, by ring⟩

theorem cross_up_f_ne_zero (up d : V3) (hd : d ≠ ⟨0, 0, 0⟩)
    (hc : cross3 up d ≠ ⟨0, 0, 0⟩) : cross3 up (vm_f d) ≠ ⟨0, 0, 0⟩ := by
  have hL : 0 < norm3 d := norm3_pos d (dot3_pos_of_ne_zero d hd)
  intro h0
  apply hc
  rw [vm_f, cross3_normalize_right] at h0
  have hx : (cross3 up d).x / norm3 d = 0 := congrArg V3.x h0
  have hy : (cross3 up d).y / norm3 d = 0 := congrArg V3.y h0
  have hz : (cross3 up d).z / norm3 d = 0 := congrArg V3.z h0
  have hx0 : (cross3 up d).x = 0 :=
    (div_eq_zero_iff.mp hx).resolve_right (ne_of_gt hL)
  have hy0 : (cross3 up d).y = 0 :=
    (div_eq_zero_iff.mp hy).resolve_right (ne_of_gt hL)
  have hz0 : (cross3 up d).z = 0 :=
    (div_eq_zero_iff.mp hz).resolve_right (ne_of_gt hL)
  calc cross3 up d
      = ⟨(cross3 up d).x, (cross3 up d).y, (cross3 up d).z⟩ := rfl
    _ = ⟨0, 0, 0⟩ := by rw [hx0, hy0, hz0]

/-! ## Claim theorems -/

/-- Claim C4: loading the five-line input `v 0 0 0`, `v 1 0 0`, `v 0 1 0`,
`vn 0 0 1`, `f 1//1 2//1 3//1` succeeds and yields positions
`[(0,0,0),(1,0,0),(0,1,0)]`, normals `[(0,0,1)]×3`, indices `[0,1,2]`. -/
theorem roundtrip_example :
    loadLines ["v 0 0 0", "v 1 0 0", "v 0 1 0", "vn 0 0 1", "f 1//1 2//1 3//1"]
      = .ok { positions := [(0, 0, 0), (1, 0, 0), (0, 1, 0)],
              normals := [(0, 0, 1), (0, 0, 1), (0, 0, 1)],
              indices := [0, 1, 2] } := by decide

/-- Claim C5: a line that is empty or whose first token is not `v`, `vn` or
`f` is skipped silently: processing it returns the state unchanged (so it
never fails), and the whole load equals the load of the input with all such
lines removed. -/
theorem unrecognized_lines_skipped :
    (∀ (st : LoaderState) (l : List Char), recognizedLine l = false →
      processLine st l = .ok st) ∧
    (∀ lines : List String,
      loadLines lines
        = (runLines initState
            ((lines.map String.data).filter recognizedLine)).map meshOf) := by
  refine ⟨processLine_skip, fun lines => ?_⟩
  unfold loadLines
  rw [runLines_filter]

/-- Witness for C5 at the comment line `# hi` and at `vt 0 0`. -/
theorem unrecognized_lines_skipped_witness :
    (recognizedLine ("# hi".data) = false ∧
      processLine initState ("# hi".data) = .ok initState) ∧
    (recognizedLine ("vt 0 0".data) = false ∧
      processLine initState ("vt 0 0".data) = .ok initState) :=
  ⟨⟨by decide, unrecognized_lines_skipped.1 initState _ (by decide)⟩,
   ⟨by decide, unrecognized_lines_skipped.1 initState _ (by decide)⟩⟩

/-- Claim C8: every iteration sets the control flow to
`WaitUntil(now + 16,666,667 ns)`, except a window `CloseRequested` event,
which sets it to `Exit`; no other event changes this. -/
theorem event_loop_control_flow :
    ∀ (nowNanos : Nat) (ev : Evt),
      iterationControlFlow nowNanos ev
        = if ev = .windowEvent .closeRequested then .exitLoop
          else .waitUntil (nowNanos + 16666667) := by
  intro nowNanos ev
  cases ev with
  | windowEvent we => cases we <;> simp [iterationControlFlow, frameDurationNanos]
  | newEvents => simp [iterationControlFlow, frameDurationNanos]
  | deviceEvent => simp [iterationControlFlow, frameDurationNanos]
  | mainEventsCleared => simp [iterationControlFlow, frameDurationNanos]
  | redrawRequested => simp [iterationControlFlow, frameDurationNanos]
  | redrawEventsCleared => simp [iterationControlFlow, frameDurationNanos]
  | loopDestroyed => simp [iterationControlFlow, frameDurationNanos]

/-- Claim C9: the per-frame uniform set is a function of the framebuffer
dimensions alone — the accumulator `t`, the frame count and the event never
influence it — and `u_light` is the constant `(-1.0, 0.4, 0.9)`. -/
theorem uniforms_independent_of_t :
    (∀ (width height t1 t2 : ℝ) (n1 n2 : Nat) (ev1 ev2 : Evt),
      frameUniforms width height t1 n1 ev1
        = frameUniforms width height t2 n2 ev2) ∧
    (∀ (width height t : ℝ) (n : Nat) (ev : Evt),
      (frameUniforms width height t n ev).u_light = ⟨-1, 0.4, 0.9⟩) :=
  ⟨fun _ _ _ _ _ _ _ _ => rfl, fun _ _ _ _ _ => rfl⟩

/-- Claim C10: the accumulator starts at `-0.5`, each iteration adds `0.0002`
and resets to `-0.5` when the result exceeds `0.5`; the range invariant
`-0.5 ≤ t ≤ 0.5` holds initially, is preserved by every step, and therefore
holds after every iteration. -/
theorem accumulator_range_invariant :
    (tInit = -0.5) ∧
    (∀ t : ℚ, tStep t = if t + 0.0002 > 0.5 then -0.5 else t + 0.0002) ∧
    (-0.5 ≤ tInit ∧ tInit ≤ 0.5) ∧
    (∀ t : ℚ, -0.5 ≤ t → t ≤ 0.5 → -0.5 ≤ tStep t ∧ tStep t ≤ 0.5) ∧
    (∀ n : Nat, -0.5 ≤ tStep^[n] tInit ∧ tStep^[n] tInit ≤ 0.5) := by
  have hstep : ∀ t : ℚ, -0.5 ≤ t → t ≤ 0.5 → -0.5 ≤ tStep t ∧ tStep t ≤ 0.5 := by
    intro t h1 h2
    unfold tStep
    by_cases h : t + 0.0002 > 0.5
    · simp only [h, if_true]
      norm_num
    · simp only [h, if_false]
      constructor
      · linarith
      · linarith [not_lt.mp h]
  refine ⟨rfl, fun t => rfl, by norm_num [tInit], hstep, ?_⟩
  intro n
  induction n with
  | zero => norm_num [tInit]
  | succ n ih =>
    rw [Function.iterate_succ_apply']
    exact hstep _ ih.1 ih.2

/-- Witness for C10 at the boundary value `t = 0.5`. -/
theorem accumulator_range_invariant_witness :
    -0.5 ≤ tStep 0.5 ∧ tStep 0.5 ≤ 0.5 :=
  accumulator_range_invariant.2.2.2.1 0.5 (by norm_num) (by norm_num)

/-- Claim C1: every successfully loaded Mesh has
`len(positions) = len(normals) = len(indices)`, the common length is
`3 × (number of emitted triangles)`, and `indices` is the identity sequence
`0, 1, …, N-1`. -/
theorem load_mesh_parallel_identity :
    ∀ (lines : List String) (m : Mesh), loadLines lines = .ok m →
      m.positions.length = m.normals.length ∧
      m.indices.length = m.positions.length ∧
      (∃ T : Nat, m.positions.length = 3 * T) ∧
      m.indices = List.range m.positions.length := by
  intro lines m hm
  unfold loadLines at hm
  cases hr : runLines initState (lines.map String.data) with
  | error e => rw [hr] at hm; exact absurd hm (by simp [Except.map])
  | ok st =>
    rw [hr] at hm
    simp only [Except.map, Except.ok.injEq] at hm
    have hdvd : 3 ∣ st.emitted.length :=
      runLines_emitted_dvd _ _ _ hr (by simp [initState])
    obtain ⟨T, hT⟩ := hdvd
    rw [← hm]
    refine ⟨by simp [meshOf], by simp [meshOf], ⟨T, by simp [meshOf, hT]⟩, ?_⟩
    simp [meshOf]

/-- Witness for C1 at a one-triangle input. -/
theorem load_mesh_parallel_identity_witness :
    (Mesh.indices { positions := [(0, 0, 0), (0, 0, 0), (0, 0, 0)],
                    normals := [(0, 0, 1), (0, 0, 1), (0, 0, 1)],
                    indices := [0, 1, 2] })
      = List.range
          (Mesh.positions { positions := [(0, 0, 0), (0, 0, 0), (0, 0, 0)],
                            normals := [(0, 0, 1), (0, 0, 1), (0, 0, 1)],
                            indices := [0, 1, 2] }).length :=
  (load_mesh_parallel_identity ["v 0 0 0", "vn 0 0 1", "f 1//1 1//1 1//1"] _
    (by decide)).2.2.2

/-- Claim C2: a face line whose `K ≥ 3` corners all resolve emits exactly
`K - 2` triangles by fan triangulation from the first corner, triangle `j`
being `(corner 0, corner (j+1), corner (j+2))` in corner order; in particular
three corners yield the single triangle in original order. -/
theorem face_fan_triangulation :
    ∀ (st : LoaderState) (toks : List (List Char)) (corners : List (Q3 × Q3)),
      resolveCorners st toks = .ok corners → 3 ≤ corners.length →
      (processFace st toks
        = .ok { st with
            emitted := st.emitted ++ triFlatten (fanTriangulate corners) }) ∧
      (fanTriangulate corners).length = corners.length - 2 ∧
      (∀ (i : Nat) (c0 a b : Q3 × Q3), corners[0]? = some c0 →
        corners[i + 1]? = some a → corners[i + 2]? = some b →
        (fanTriangulate corners)[i]? = some (c0, a, b)) ∧
      (∀ a b c : Q3 × Q3, fanTriangulate [a, b, c] = [(a, b, c)]) := by
  intro st toks corners hres hlen
  refine ⟨?_, fanTriangulate_length corners,
    fun i c0 a b h0 h1 h2 => fan_get corners i c0 a b h0 h1 h2,
    fun a b c => rfl⟩
  unfold processFace
  rw [hres]
  dsimp only
  rw [if_neg (by omega)]

/-- Witness for C2 at a four-corner face (two triangles). -/
theorem face_fan_triangulation_witness :
    processFace ⟨[(0, 0, 0), (1, 0, 0), (0, 1, 0), (1, 1, 0)], [(0, 0, 1)], []⟩
        (["1//1", "2//1", "3//1", "4//1"].map String.data)
      = .ok ⟨[(0, 0, 0), (1, 0, 0), (0, 1, 0), (1, 1, 0)], [(0, 0, 1)],
          [] ++ triFlatten (fanTriangulate
            [((0, 0, 0), (0, 0, 1)), ((1, 0, 0), (0, 0, 1)),
             ((0, 1, 0), (0, 0, 1)), ((1, 1, 0), (0, 0, 1))])⟩ :=
  (face_fan_triangulation _ _ _ (by decide) (by decide)).1

/-- Claim C3: the loader fails with `IOError` exactly when the file cannot be
opened, fails with a `ParseError` exactly when some line is at fault (a
malformed numeric field, a face with fewer than 3 corners, or an index out of
range for the records parsed so far), every parse failure carries one of
those three reasons, and a failed load never also returns a Mesh. -/
theorem load_error_characterization :
    (load none = .error .ioError) ∧
    (∀ lines : List String, load (some lines) ≠ .error .ioError) ∧
    (∀ lines : List String,
      (∃ r, loadLines lines = .error (.parseError r)) ↔
        inputFaulty 0 0 (lines.map String.data) = true) ∧
    (∀ (lines : List String) (r : ParseReason),
      loadLines lines = .error (.parseError r) →
        r = .malformedNumber ∨ r = .faceTooShort ∨ r = .indexOutOfRange) ∧
    (∀ (lines : List String) (e : LoadError) (m : Mesh),
      loadLines lines = .error e → loadLines lines ≠ .ok m) := by
  have hkey : ∀ (lines : List String) (e : LoadError),
      loadLines lines = .error e ↔
        runLines initState (lines.map String.data) = .error e := by
    intro lines e
    unfold loadLines
    cases hr : runLines initState (lines.map String.data) with
    | error e2 => simp [Except.map]
    | ok st => simp [Except.map]
  refine ⟨rfl, ?_, ?_, ?_, ?_⟩
  · intro lines hcon
    obtain ⟨r, hr⟩ := runLines_error_parse _ _ _ ((hkey lines .ioError).mp hcon)
    exact absurd hr (by simp)
  · intro lines
    constructor
    · rintro ⟨r, hr⟩
      exact (runLines_error_iff (lines.map String.data) initState).mp
        ⟨_, (hkey lines _).mp hr⟩
    · intro hf
      obtain ⟨e, he⟩ :=
        (runLines_error_iff (lines.map String.data) initState).mpr hf
      obtain ⟨r, hr⟩ := runLines_error_parse _ _ _ he
      exact ⟨r, (hkey lines _).mpr (hr ▸ he)⟩
  · intro lines r _
    cases r with
    | malformedNumber => exact Or.inl rfl
    | faceTooShort => exact Or.inr (Or.inl rfl)
    | indexOutOfRange => exact Or.inr (Or.inr rfl)
  · intro lines e m h1 h2
    rw [h1] at h2
    exact absurd h2 (by simp)

/-- Witness for C3: a face referencing undefined records fails with an
out-of-range parse error, and an unopenable file fails with `IOError`. -/
theorem load_error_characterization_witness :
    (load none = .error .ioError) ∧
    (loadLines ["f 1"] = .error (.parseError .indexOutOfRange)) ∧
    (ParseReason.indexOutOfRange = .malformedNumber ∨
      ParseReason.indexOutOfRange = .faceTooShort ∨
      ParseReason.indexOutOfRange = .indexOutOfRange) :=
  ⟨load_error_characterization.1, by decide,
   load_error_characterization.2.2.2.1 ["f 1"] .indexOutOfRange (by decide)⟩

/-- Claim C6: a corner descriptor's first slash-delimited field is the
1-based vertex index and its last field is the 1-based normal index, any
middle field being ignored; a two-field descriptor `vertex/texcoord` hence
has its texcoord field used as the normal index (e.g. `2/7` gives vertex 2,
normal 7). -/
theorem corner_first_last_fields :
    (∀ (f0 : List Char) (rest : List (List Char)),
      parseCornerFields (f0 :: rest)
        = match parseIndex f0, parseIndex (List.getLastD rest f0) with
          | some v, some n => some (v, n)
          | _, _ => none) ∧
    (∀ a b : List Char, '/' ∉ a → '/' ∉ b →
      parseCorner (a ++ '/' :: b) = parseCornerFields [a, b]) ∧
    (∀ a b c : List Char, '/' ∉ a → '/' ∉ b → '/' ∉ c →
      parseCorner (a ++ '/' :: (b ++ '/' :: c)) = parseCornerFields [a, b, c]) ∧
    parseCorner ("2/7".data) = some (2, 7) := by
  have hnot : ∀ (a : List Char), '/' ∉ a →
      ∀ x ∈ a, (fun y => decide (y = '/')) x = false := by
    intro a ha x hx
    simp only [decide_eq_false_iff_not]
    intro hxe
    exact ha (hxe ▸ hx)
  refine ⟨?_, ?_, ?_, by decide⟩
  · intro f0 rest
    simp only [parseCornerFields, List.getLastD_eq_getLast?]
    cases h1 : parseIndex f0 <;>
      cases h2 : parseIndex ((rest.getLast?).getD f0) <;>
        simp [h1, h2, Option.bind]
  · intro a b ha hb
    unfold parseCorner
    rw [splitCh_append _ a '/' b (by simp) (hnot a ha),
      splitCh_no_match _ b (hnot b hb)]
  · intro a b c ha hb hc
    unfold parseCorner
    rw [splitCh_append _ a '/' (b ++ '/' :: c) (by simp) (hnot a ha),
      splitCh_append _ b '/' c (by simp) (hnot b hb),
      splitCh_no_match _ c (hnot c hc)]

/-- Claim C7: with a nonzero look direction and an up vector not parallel to
it, the basis vectors `s_norm`, `u`, `f` computed by `view_matrix` are a
right-handed orthonormal basis (unit lengths, pairwise orthogonal,
`u = f × s_norm`), the upper-left 3×3 block of the produced matrix has them
as its columns, and its fourth row is
`(-position·s_norm, -position·u, -position·f, 1)`, read as exact real
arithmetic. -/
theorem view_matrix_orthonormal :
    ∀ (position direction up : V3),
      direction ≠ ⟨0, 0, 0⟩ → cross3 up direction ≠ ⟨0, 0, 0⟩ →
      (dot3 (vm_f direction) (vm_f direction) = 1 ∧
       dot3 (vm_snorm up direction) (vm_snorm up direction) = 1 ∧
       dot3 (vm_u up direction) (vm_u up direction) = 1 ∧
       dot3 (vm_snorm up direction) (vm_f direction) = 0 ∧
       dot3 (vm_snorm up direction) (vm_u up direction) = 0 ∧
       dot3 (vm_u up direction) (vm_f direction) = 0 ∧
       vm_u up direction = cross3 (vm_f direction) (vm_snorm up direction)) ∧
      (view_matrix position direction up 0 0 = (vm_snorm up direction).x ∧
       view_matrix position direction up 1 0 = (vm_snorm up direction).y ∧
       view_matrix position direction up 2 0 = (vm_snorm up direction).z ∧
       view_matrix position direction up 0 1 = (vm_u up direction).x ∧
       view_matrix position direction up 1 1 = (vm_u up direction).y ∧
       view_matrix position direction up 2 1 = (vm_u up direction).z ∧
       view_matrix position direction up 0 2 = (vm_f direction).x ∧
       view_matrix position direction up 1 2 = (vm_f direction).y ∧
       view_matrix position direction up 2 2 = (vm_f direction).z ∧
       view_matrix position direction up 0 3 = 0 ∧
       view_matrix position direction up 1 3 = 0 ∧
       view_matrix position direction up 2 3 = 0 ∧
       view_matrix position direction up 3 0
           = -(dot3 position (vm_snorm up direction)) ∧
       view_matrix position direction up 3 1
           = -(dot3 position (vm_u up direction)) ∧
       view_matrix position direction up 3 2
           = -(dot3 position (vm_f direction)) ∧
       view_matrix position direction up 3 3 = 1) := by
  intro position direction up hd hc
  have hff : dot3 (vm_f direction) (vm_f direction) = 1 :=
    dot3_normalize_self direction (dot3_pos_of_ne_zero direction hd)
  have hspos : 0 < dot3 (cross3 up (vm_f direction))
      (cross3 up (vm_f direction)) :=
    dot3_pos_of_ne_zero _ (cross_up_f_ne_zero up direction hd hc)
  have hsn : dot3 (vm_snorm up direction) (vm_snorm up direction) = 1 :=
    dot3_normalize_self _ hspos
  have hsf : dot3 (vm_snorm up direction) (vm_f direction) = 0 := by
    have h1 : dot3 (cross3 up (vm_f direction)) (vm_f direction) = 0 :=
      dot3_cross_right up (vm_f direction)
    calc dot3 (vm_snorm up direction) (vm_f direction)
        = dot3 (cross3 up (vm_f direction)) (vm_f direction)
            / norm3 (cross3 up (vm_f direction)) := dot3_normalize_left _ _
      _ = 0 := by rw [h1]; exact zero_div _
  have hfsn : dot3 (vm_f direction) (vm_snorm up direction) = 0 :=
    (dot3_comm _ _).trans hsf
  have hsnu : dot3 (vm_snorm up direction) (vm_u up direction) = 0 :=
    (dot3_comm _ _).trans
      (dot3_cross_right (vm_f direction) (vm_snorm up direction))
  have huf : dot3 (vm_u up direction) (vm_f direction) = 0 :=
    dot3_cross_left (vm_f direction) (vm_snorm up direction)
  have huu : dot3 (vm_u up direction) (vm_u up direction) = 1 := by
    have hlag := cross3_lagrange (vm_f direction) (vm_snorm up direction)
    calc dot3 (vm_u up direction) (vm_u up direction)
        = dot3 (cross3 (vm_f direction) (vm_snorm up direction))
            (cross3 (vm_f direction) (vm_snorm up direction)) := rfl
      _ = dot3 (vm_f direction) (vm_f direction)
            * dot3 (vm_snorm up direction) (vm_snorm up direction)
            - dot3 (vm_f direction) (vm_snorm up direction)
            * dot3 (vm_f direction) (vm_snorm up direction) := hlag
      _ = 1 := by rw [hff, hsn, hfsn]; ring
  exact ⟨⟨hff, hsn, huu, hsf, hsnu, huf, rfl⟩,
    rfl, rfl, rfl, rfl, rfl, rfl, rfl, rfl, rfl, rfl, rfl, rfl, rfl, rfl,
    rfl, rfl⟩

/-- Witness for C7 at the camera used by the program
(`main.rs:116`): position `(2,-1,1)`, direction `(-2,1,1)`, up `(0,1,0)`. -/
theorem view_matrix_orthonormal_witness :
    dot3 (vm_f ⟨-2, 1, 1⟩) (vm_f ⟨-2, 1, 1⟩) = 1 ∧
    dot3 (vm_snorm ⟨0, 1, 0⟩ ⟨-2, 1, 1⟩) (vm_f ⟨-2, 1, 1⟩) = 0 :=
  have h1 : (⟨-2, 1, 1⟩ : V3) ≠ ⟨0, 0, 0⟩ := by
    intro h
    rw [V3.mk.injEq] at h
    norm_num at h
  have h2 : cross3 ⟨0, 1, 0⟩ ⟨-2, 1, 1⟩ ≠ ⟨0, 0, 0⟩ := by
    intro h
    norm_num [cross3, V3.mk.injEq] at h
  ⟨(view_matrix_orthonormal ⟨2, -1, 1⟩ ⟨-2, 1, 1⟩ ⟨0, 1, 0⟩ h1 h2).1.1,
   (view_matrix_orthonormal ⟨2, -1, 1⟩ ⟨-2, 1, 1⟩ ⟨0, 1, 0⟩ h1 h2).1.2.2.2.1⟩

/-- Witness for C6 at the descriptors `1/2/3` and `4/9`. -/
theorem corner_first_last_fields_witness :
    (parseCorner (['1'] ++ '/' :: (['2'] ++ '/' :: ['3']))
      = parseCornerFields [['1'], ['2'], ['3']]) ∧
    (parseCorner (['4'] ++ '/' :: ['9']) = parseCornerFields [['4'], ['9']]) :=
  ⟨corner_first_last_fields.2.2.1 ['1'] ['2'] ['3']
      (by decide) (by decide) (by decide),
   corner_first_last_fields.2.1 ['4'] ['9'] (by decide) (by decide)⟩

end OpenglRust
